import Mathlib

/-
Verification of the consulting-tracker synchronization subsystem.

The development shallowly embeds the sync core of the repository:
  * src/services/sheetsDataMapper.ts  (row mappers, both directions)
  * src/services/syncManager.ts       (merge, conflict detection, push to sheets)
  * src/contexts/SyncContext.tsx      (the push orchestrator `doPush`)

Modelling conventions:
  * JS strings are Lean `String`; JS string comparison (`<`, `>=`) is the
    lexicographic order on `String`.
  * JS numbers in this code base are non-negative decimal quantities
    (rates, hours, amounts, counters); they are modelled as `Nat`.
    `String(x)` is modelled by `natCell` (canonical decimal) and
    `parseFloat(s) || 0` / `parseInt(s, 10)` by `parseNatChars` with a
    `0`-default, which agrees with the JS behaviour on every cell that the
    forward mappers emit.
  * A cell read `r[i]` yields `""` for an out-of-range index, matching the
    way the code treats `undefined` cells (`r[i] || ...`, `r[i] === s`,
    truthiness tests) — `undefined` and `""` are indistinguishable under
    every operation the mappers apply to a cell.
  * `Map` (JS insertion-ordered map) is an association list with
    `mapSet` / `mapGet` mirroring `Map.set` / `Map.get` / `Map.values`.
  * The remote spreadsheet and the fallible gapi transport are explicit
    data: a `RemoteDoc` holds the current cell contents, a `RemoteFaults`
    record injects transport failures, and every remote request performed
    is logged as a `RemoteCall` event.
-/

set_option maxHeartbeats 1000000

/-! ### JS string and number primitives -/

/-- Digit value of a character: `some d` for `'0'..'9'`, else `none`. -/
def digitVal (c : Char) : Option Nat :=
  if 48 ≤ c.toNat ∧ c.toNat ≤ 57 then some (c.toNat - 48) else none

/-- Canonical decimal rendering of a natural number (fuel-based so that it
reduces definitionally; fuel `n+1` always suffices). Models JS `String(x)`
for the non-negative integral numbers this code base stores. -/
def natToCharsAux : Nat → Nat → List Char
  | 0, _ => []
  | fuel + 1, n =>
    if n < 10 then [Nat.digitChar n]
    else natToCharsAux fuel (n / 10) ++ [Nat.digitChar (n % 10)]

def natToChars (n : Nat) : List Char := natToCharsAux (n + 1) n

/-- Decimal cell for a JS number. -/
def natCell (n : Nat) : String := String.mk (natToChars n)

/-- Accumulating decimal parser over characters; fails on a non-digit. -/
def parseNatAcc (acc : Nat) : List Char → Option Nat
  | [] => some acc
  | c :: cs =>
    match digitVal c with
    | some d => parseNatAcc (acc * 10 + d) cs
    | none => none

/-- Parse a (non-empty, all-digit) character list as a natural number.
Models JS `parseFloat` / `parseInt(·, 10)` on the canonical decimal cells
the forward mappers emit (`parseFloat("") = NaN` maps to `none`). -/
def parseNatChars (cs : List Char) : Option Nat :=
  match cs with
  | [] => none
  | _ :: _ => parseNatAcc 0 cs

/-- Models `parseFloat(s) || 0`: parse failure (and `NaN`) collapse to `0`. -/
def parseFloatD (s : String) : Nat := (parseNatChars s.data).getD 0

/-- Split a character list at `';'`. Models JS `s.split(';')` (which returns
`[""]` on the empty string). -/
def splitSemChars : List Char → List (List Char)
  | [] => [[]]
  | c :: cs =>
    match splitSemChars cs with
    | [] => [[]]
    | a :: as => if c = ';' then [] :: a :: as else (c :: a) :: as

/-- Join character lists with `';'`. Models JS `arr.join(';')`. -/
def joinSemChars : List (List Char) → List Char
  | [] => []
  | [p] => p
  | p :: ps => p ++ ';' :: joinSemChars ps

/-- JS `s.split(';')`. -/
def jsSplitSem (s : String) : List String := (splitSemChars s.data).map String.mk

/-- JS `arr.join(';')`. -/
def jsJoinSem (parts : List String) : String :=
  String.mk (joinSemChars (parts.map String.data))

/-- JS `hay.includes(needle)`. -/
def containsStr (hay needle : String) : Bool :=
  hay.data.tails.any fun t => needle.data.isPrefixOf t

/-- Lexicographic comparison of character lists by code point. -/
def jsLtChars : List Char → List Char → Bool
  | [], [] => false
  | [], _ :: _ => true
  | _ :: _, [] => false
  | a :: as, b :: bs =>
    if a.toNat < b.toNat then true
    else if b.toNat < a.toNat then false
    else jsLtChars as bs

/-- JS `a < b` on strings: lexicographic by code unit. `a >= b` is its
negation (strings admit no `NaN`), and `a > b` is `jsLtStr b a`. -/
def jsLtStr (a b : String) : Bool := jsLtChars a.data b.data

/-- JS `x || ''` for an optional string. -/
def orEmpty : Option String → String
  | some s => s
  | none => ""

/-- JS `s || undefined`: the empty string collapses to `undefined`. -/
def cellOrNone (s : String) : Option String :=
  if s = "" then none else some s

/-- JS `b ? 'Yes' : 'No'`. -/
def boolToYesNo (b : Bool) : String := if b then "Yes" else "No"

/-- JS `x != null ? String(x) : ''` for an optional number. -/
def optNatCell : Option Nat → String
  | some n => natCell n
  | none => ""

/-- JS `r[i]`: an out-of-range read yields `""` (see the conventions above). -/
def cell (r : List String) (i : Nat) : String := r.getD i ""

/-! ### JS `Map` (insertion-ordered association list) -/

/-- JS `Map.set`: replace in place if the key exists, else append. -/
def mapSet {α : Type} (m : List (String × α)) (k : String) (v : α) :
    List (String × α) :=
  if m.any (fun p => p.1 == k) then
    m.map (fun p => if p.1 == k then (k, v) else p)
  else m ++ [(k, v)]

/-- JS `Map.get` (`none` for a missing key). -/
def mapGet {α : Type} (m : List (String × α)) (k : String) : Option α :=
  (m.find? (fun p => p.1 == k)).map (·.2)

/-- JS `Array.from(map.values())`. -/
def mapValues {α : Type} (m : List (String × α)) : List α := m.map (·.2)

/-! ### Data model (src/types, newest variants: the field sets the mappers
serialize). TS string-literal unions (`Currency`, `BillingType`,
`InvoiceStatus`) are modelled as `String` because the reverse mappers cast
cells without runtime validation; validity predicates below restrict them. -/

structure Company where
  id : String
  name : String
  currency : String
  billingType : String
  hourlyRate : Nat
  monthlyRate : Option Nat
  nextInvoiceNumber : Option Nat
  invoiceRequired : Bool
  paymentTerms : Option String
  paymentMethod : Option String
  contactName : Option String
  contactEmail : Option String
  notes : Option String
  isActive : Bool
  createdAt : String
  updatedAt : String
deriving DecidableEq

structure Project where
  id : String
  companyId : String
  name : String
  isActive : Bool
  createdAt : String
  updatedAt : String
deriving DecidableEq

structure TimeEntry where
  id : String
  companyId : String
  projectId : Option String
  date : String
  hours : Nat
  fixedAmount : Option Nat
  description : String
  paidDate : Option String
  createdAt : String
  updatedAt : String
deriving DecidableEq

structure Invoice where
  id : String
  companyId : String
  invoiceNumber : Option String
  invoiceDate : String
  timeEntryIds : List String
  totalHours : Nat
  totalAmount : Nat
  currency : String
  rateUsed : Nat
  status : String
  paidDate : Option String
  notes : Option String
  billingType : Option String
  retainerMonth : Option String
  exchangeRateToUSD : Option Nat
  createdAt : String
  updatedAt : String
deriving DecidableEq

structure BusinessProfile where
  name : String
  address : String
  email : String
  phone : String
  ein : String
  routingNumber : Option String
  swiftCode : Option String
  accountNumber : Option String
deriving DecidableEq

/-- The five collections moved by a sync (src/services/syncManager.ts,
`interface SyncData`). -/
structure SyncData where
  companies : List Company
  projects : List Project
  timeEntries : List TimeEntry
  invoices : List Invoice
  profile : BusinessProfile
deriving DecidableEq

/-! ### Remote Mapper (src/services/sheetsDataMapper.ts) -/

def companiesHeader : List String :=
  ["ID", "Name", "Currency", "Hourly Rate", "Invoice Required", "Payment Terms",
   "Payment Method", "Contact Name", "Contact Email", "Notes", "Active",
   "Created", "Updated", "Billing Type", "Monthly Rate", "Next Invoice Number"]

def companiesToRows (companies : List Company) : List (List String) :=
  companiesHeader :: companies.map fun c =>
    [c.id, c.name, c.currency, natCell c.hourlyRate,
     boolToYesNo c.invoiceRequired,
     orEmpty c.paymentTerms, orEmpty c.paymentMethod,
     orEmpty c.contactName, orEmpty c.contactEmail,
     orEmpty c.notes, boolToYesNo c.isActive,
     c.createdAt, c.updatedAt,
     (if c.billingType = "" then "hourly" else c.billingType),
     optNatCell c.monthlyRate,
     optNatCell c.nextInvoiceNumber]

def projectsHeader : List String :=
  ["ID", "Company ID", "Name", "Active", "Created", "Updated"]

def projectsToRows (projects : List Project) : List (List String) :=
  projectsHeader :: projects.map fun p =>
    [p.id, p.companyId, p.name, boolToYesNo p.isActive, p.createdAt, p.updatedAt]

def timeEntriesHeader : List String :=
  ["ID", "Company ID", "Project ID", "Date", "Hours", "Fixed Amount",
   "Description", "Paid Date", "Created", "Updated"]

def timeEntriesToRows (entries : List TimeEntry) : List (List String) :=
  timeEntriesHeader :: entries.map fun e =>
    [e.id, e.companyId, orEmpty e.projectId, e.date,
     natCell e.hours,
     optNatCell e.fixedAmount,
     e.description, orEmpty e.paidDate,
     e.createdAt, e.updatedAt]

def invoicesHeader : List String :=
  ["ID", "Company ID", "Invoice #", "Date", "Time Entry IDs", "Total Hours",
   "Total Amount", "Currency", "Rate Used", "Status", "Paid Date", "Notes",
   "Created", "Updated", "Billing Type", "Retainer Month", "Exchange Rate to USD"]

def invoicesToRows (invoices : List Invoice) : List (List String) :=
  invoicesHeader :: invoices.map fun i =>
    [i.id, i.companyId, orEmpty i.invoiceNumber, i.invoiceDate,
     jsJoinSem i.timeEntryIds,
     natCell i.totalHours, natCell i.totalAmount,
     i.currency, natCell i.rateUsed,
     i.status, orEmpty i.paidDate,
     orEmpty i.notes, i.createdAt, i.updatedAt,
     (match i.billingType with | some b => if b = "" then "hourly" else b | none => "hourly"),
     orEmpty i.retainerMonth,
     optNatCell i.exchangeRateToUSD]

def profileToRows (profile : BusinessProfile) : List (List String) :=
  [["Field", "Value"],
   ["Name", profile.name],
   ["Address", profile.address],
   ["Email", profile.email],
   ["Phone", profile.phone],
   ["EIN", profile.ein],
   ["Routing Number", orEmpty profile.routingNumber],
   ["SWIFT Code", orEmpty profile.swiftCode],
   ["Account Number", orEmpty profile.accountNumber]]

def rowsToCompanies (rows : List (List String)) : List Company :=
  if rows.length ≤ 1 then []
  else
    let header := rows.headD []
    let hasBillingType := header.contains "Billing Type"
    let hasNextInvoice := header.contains "Next Invoice Number"
    (rows.drop 1).map fun r =>
      { id := cell r 0
        name := cell r 1
        currency := if cell r 2 = "" then "USD" else cell r 2
        billingType := if hasBillingType && !(cell r 13 == "") then cell r 13 else "hourly"
        hourlyRate := parseFloatD (cell r 3)
        monthlyRate := if hasBillingType && !(cell r 14 == "") then
            some ((parseNatChars (cell r 14).data).getD 0) else none
        nextInvoiceNumber := if hasNextInvoice && !(cell r 15 == "") then
            some ((parseNatChars (cell r 15).data).getD 0) else none
        invoiceRequired := cell r 4 == "Yes"
        paymentTerms := cellOrNone (cell r 5)
        paymentMethod := cellOrNone (cell r 6)
        contactName := cellOrNone (cell r 7)
        contactEmail := cellOrNone (cell r 8)
        notes := cellOrNone (cell r 9)
        isActive := !(cell r 10 == "No")
        createdAt := cell r 11
        updatedAt := cell r 12 }

def rowsToProjects (rows : List (List String)) : List Project :=
  if rows.length ≤ 1 then []
  else (rows.drop 1).map fun r =>
    { id := cell r 0
      companyId := cell r 1
      name := cell r 2
      isActive := !(cell r 3 == "No")
      createdAt := cell r 4
      updatedAt := cell r 5 }

def rowsToTimeEntries (rows : List (List String)) : List TimeEntry :=
  if rows.length ≤ 1 then []
  else (rows.drop 1).map fun r =>
    { id := cell r 0
      companyId := cell r 1
      projectId := cellOrNone (cell r 2)
      date := cell r 3
      hours := parseFloatD (cell r 4)
      fixedAmount := if !(cell r 5 == "") then
          some ((parseNatChars (cell r 5).data).getD 0) else none
      description := cell r 6
      paidDate := cellOrNone (cell r 7)
      createdAt := cell r 8
      updatedAt := cell r 9 }

def rowsToInvoices (rows : List (List String)) : List Invoice :=
  if rows.length ≤ 1 then []
  else
    let header := rows.headD []
    let hasBillingType := header.contains "Billing Type"
    let hasExchangeRate := header.contains "Exchange Rate to USD"
    (rows.drop 1).map fun r =>
      { id := cell r 0
        companyId := cell r 1
        invoiceNumber := cellOrNone (cell r 2)
        invoiceDate := cell r 3
        timeEntryIds := if !(cell r 4 == "") then jsSplitSem (cell r 4) else []
        totalHours := parseFloatD (cell r 5)
        totalAmount := parseFloatD (cell r 6)
        currency := if cell r 7 = "" then "USD" else cell r 7
        rateUsed := parseFloatD (cell r 8)
        status := if cell r 9 = "" then "draft" else cell r 9
        paidDate := cellOrNone (cell r 10)
        notes := cellOrNone (cell r 11)
        billingType := some (if hasBillingType && !(cell r 14 == "") then cell r 14 else "hourly")
        retainerMonth := if hasBillingType && !(cell r 15 == "") then some (cell r 15) else none
        exchangeRateToUSD := if hasExchangeRate && !(cell r 16 == "") then
            some ((parseNatChars (cell r 16).data).getD 0) else none
        createdAt := cell r 12
        updatedAt := cell r 13 }

def rowsToProfile (rows : List (List String)) : BusinessProfile :=
  let m := (rows.drop 1).foldl
    (fun m row => if !(cell row 0 == "") then mapSet m (cell row 0) (cell row 1) else m)
    ([] : List (String × String))
  { name := (mapGet m "Name").getD ""
    address := (mapGet m "Address").getD ""
    email := (mapGet m "Email").getD ""
    phone := (mapGet m "Phone").getD ""
    ein := (mapGet m "EIN").getD ""
    routingNumber := match mapGet m "Routing Number" with
      | some s => cellOrNone s
      | none => none
    swiftCode := match mapGet m "SWIFT Code" with
      | some s => cellOrNone s
      | none => none
    accountNumber := match mapGet m "Account Number" with
      | some s => cellOrNone s
      | none => none }

/-! ### Merge Engine (src/services/syncManager.ts, `mergeArray` / `mergeData`)

`mergeArray` is generic over `T extends { id: string; updatedAt: string }`;
the two projections are passed explicitly. The JS comparison
`l.updatedAt >= existing.updatedAt` is `!jsLtStr l.updatedAt existing.updatedAt`
(strings are totally ordered, so `>=` is the negation of `<`). -/

def mergeArray {T : Type} (idOf updOf : T → String) (l r : List T) : List T :=
  let m : List (String × T) := r.foldl (fun m rec => mapSet m (idOf rec) rec) []
  let m := l.foldl
    (fun m rec =>
      match mapGet m (idOf rec) with
      | none => mapSet m (idOf rec) rec
      | some existing =>
        if !jsLtStr (updOf rec) (updOf existing) then mapSet m (idOf rec) rec else m)
    m
  mapValues m

def mergeData (l r : SyncData) : SyncData :=
  { companies := mergeArray Company.id Company.updatedAt l.companies r.companies
    projects := mergeArray Project.id Project.updatedAt l.projects r.projects
    timeEntries := mergeArray TimeEntry.id TimeEntry.updatedAt l.timeEntries r.timeEntries
    invoices := mergeArray Invoice.id Invoice.updatedAt l.invoices r.invoices
    profile := l.profile }

/-! ### Remote document, transport faults, orchestrator state -/

/-- The user-owned spreadsheet: current cell contents of the five data sheets,
plus the `_Metadata` sheet (`none` models the sheet being absent, in which
case a read of its range throws). `freshSpreadsheetId` is the id the Sheets
service would assign on `createSpreadsheet`. -/
structure RemoteDoc where
  companiesRows : List (List String)
  projectsRows : List (List String)
  timeEntriesRows : List (List String)
  invoicesRows : List (List String)
  profileRows : List (List String)
  metadataRows : Option (List (List String))
  freshSpreadsheetId : String
deriving DecidableEq

/-- Transport-fault injection: `some msg` makes the corresponding gapi request
reject with `msg`; `metaReadFails` makes the `_Metadata` GET fail even when
the sheet exists (a network error, as opposed to an absent sheet). -/
structure RemoteFaults where
  metaReadFails : Bool
  pullFails : Option String
  createFails : Option String
  ensureFails : Option String
  writeFails : Option String
  metaWriteFails : Option String
deriving DecidableEq

/-- Every gapi request the orchestrator issues is logged as one of these. -/
inductive RemoteCall
  | createSpreadsheet
  | getSpreadsheetMeta
  | clearRange (range : String)
  | valuesBatchUpdate
  | valuesBatchGet
  | metadataGet
  | metadataClear
  | metadataPut
deriving DecidableEq

/-- Outcome of the gapi GET on `_Metadata!A1:B2`: an error when the transport
fails or the sheet is absent, otherwise the rows (`resp.result.values || []`
is folded into the stored rows). -/
def metaFetch (d : RemoteDoc) (f : RemoteFaults) : Except String (List (List String)) :=
  if f.metaReadFails then .error "network error"
  else
    match d.metadataRows with
    | none => .error "Unable to parse range: _Metadata!A1:B2"
    | some rows => .ok rows

/-- Mirrors `readRemoteLastModified` (src/services/syncManager.ts): the bare
`catch` swallows every failure of the GET — absent sheet and transport error
alike — and returns `null`; otherwise the value is accepted only from the
shape `[["Key","Value"],["lastModified", iso]]`, with `rows[1][1] || null`. -/
def readRemoteLastModified (fetch : Except String (List (List String))) : Option String :=
  match fetch with
  | .error _ => none
  | .ok rows =>
    if rows.length ≥ 2 && (cell (rows.getD 1 []) 0 == "lastModified") then
      cellOrNone (cell (rows.getD 1 []) 1)
    else none

/-- Sync state values of src/contexts/SyncContext.tsx (`SyncStatus.state`). -/
inductive SyncStateKind
  | idle
  | pushing
  | pulling
  | conflict
  | error
deriving DecidableEq

/-- Mirrors `interface SyncStatus` (lastPushAt is an ISO timestamp). -/
structure SyncStatus where
  state : SyncStateKind
  isConnected : Bool
  lastPushAt : Option String
  lastError : Option String
deriving DecidableEq

/-- The world the orchestrator acts on: the refs and component state of
`SyncProvider`, the relevant localStorage keys, the Entity Store contents as
read through `storageRef`, and the remote document plus injected faults. -/
structure AppState where
  pushing : Bool
  mounted : Bool
  hasToken : Bool
  status : SyncStatus
  spreadsheetId : Option String
  lastSyncTime : Option String
  store : SyncData
  remote : RemoteDoc
  faults : RemoteFaults
deriving DecidableEq

/-- Modelled from the spec: `writeAll` (utils/storage.ts is absent from the
source snapshot; the spec's Entity Store boundary lists
`replaceAll(snapshot)`, "used by pull and post-merge write-back") replaces
the Entity Store contents with the given snapshot; the subsequent
`storageRef.current.refresh()` re-reads it into component state. -/
def writeAll (st : AppState) (d : SyncData) : AppState :=
  { st with store := d }

/-- The snapshot `pullFromSheets` parses out of the remote document via the
five reverse mappers. -/
def remoteParsed (st : AppState) : SyncData :=
  { companies := rowsToCompanies st.remote.companiesRows
    projects := rowsToProjects st.remote.projectsRows
    timeEntries := rowsToTimeEntries st.remote.timeEntriesRows
    invoices := rowsToInvoices st.remote.invoicesRows
    profile := rowsToProfile st.remote.profileRows }

/-- Mirrors `pullFromSheets`: `null` without a stored spreadsheet id;
otherwise one `values:batchGet` over the five data sheets (`valueRanges[i]?.values
|| []` is the stored rows), then a metadata read that records the remote
timestamp as the local `lastSyncTime` when present, then the parsed data. -/
def pullFromSheets (st : AppState) : AppState × List RemoteCall × Except String (Option SyncData) :=
  match st.spreadsheetId with
  | none => (st, [], .ok none)
  | some _ =>
    match st.faults.pullFails with
    | some msg => (st, [.valuesBatchGet], .error msg)
    | none =>
      let data : SyncData := remoteParsed st
      match readRemoteLastModified (metaFetch st.remote st.faults) with
      | some ts => ({ st with lastSyncTime := some ts }, [.valuesBatchGet, .metadataGet], .ok (some data))
      | none => (st, [.valuesBatchGet, .metadataGet], .ok (some data))

/-- Mirrors `checkForConflict`: no local `lastSyncTime` — first sync, no
conflict; no remote marker — legacy spreadsheet, no conflict; remote marker
strictly greater — conflict, fetch the remote snapshot via `pullFromSheets`. -/
def checkForConflict (st : AppState) (spreadsheetId : String) :
    AppState × List RemoteCall × Except String (Bool × Option SyncData) :=
  let _ := spreadsheetId
  match st.lastSyncTime with
  | none => (st, [], .ok (false, none))
  | some localLastSync =>
    match readRemoteLastModified (metaFetch st.remote st.faults) with
    | none => (st, [.metadataGet], .ok (false, none))
    | some remoteLastModified =>
      if jsLtStr localLastSync remoteLastModified then
        match pullFromSheets st with
        | (st', calls, .error msg) => (st', .metadataGet :: calls, .error msg)
        | (st', calls, .ok remoteData) => (st', .metadataGet :: calls, .ok (true, remoteData))
      else (st, [.metadataGet], .ok (false, none))

/-- Mirrors `writeRemoteLastModified`: clear `_Metadata!A:Z` (failure caught
and ignored), then `PUT` the two rows `[["Key","Value"],["lastModified", iso]]`. -/
def writeRemoteLastModified (st : AppState) (iso : String) :
    AppState × List RemoteCall × Except String Unit :=
  let st1 := { st with remote :=
    { st.remote with metadataRows := st.remote.metadataRows.map fun _ => [] } }
  match st.faults.metaWriteFails with
  | some msg => (st1, [.metadataClear, .metadataPut], .error msg)
  | none =>
    ({ st1 with remote := { st1.remote with
        metadataRows := some [["Key", "Value"], ["lastModified", iso]] } },
     [.metadataClear, .metadataPut], .ok ())

/-- Shared tail of `syncToSheets` after the spreadsheet exists: clear the five
data sheets (each failure caught and ignored), `values:batchUpdate` all five
tables, write the metadata timestamp, record it locally, return the id. -/
def syncBody (st : AppState) (id now : String) (data : SyncData) (calls0 : List RemoteCall) :
    AppState × List RemoteCall × Except String String :=
  let clearCalls : List RemoteCall :=
    [.clearRange "Companies!A:Z", .clearRange "Projects!A:Z",
     .clearRange "TimeEntries!A:Z", .clearRange "Invoices!A:Z",
     .clearRange "Profile!A:Z"]
  let st1 := { st with remote := { st.remote with
    companiesRows := [], projectsRows := [], timeEntriesRows := [],
    invoicesRows := [], profileRows := [] } }
  match st1.faults.writeFails with
  | some msg => (st1, calls0 ++ clearCalls ++ [.valuesBatchUpdate], .error msg)
  | none =>
    let st2 := { st1 with remote := { st1.remote with
      companiesRows := companiesToRows data.companies
      projectsRows := projectsToRows data.projects
      timeEntriesRows := timeEntriesToRows data.timeEntries
      invoicesRows := invoicesToRows data.invoices
      profileRows := profileToRows data.profile } }
    match writeRemoteLastModified st2 now with
    | (st3, c3, .error msg) =>
      (st3, calls0 ++ clearCalls ++ [.valuesBatchUpdate] ++ c3, .error msg)
    | (st3, c3, .ok ()) =>
      ({ st3 with lastSyncTime := some now },
       calls0 ++ clearCalls ++ [.valuesBatchUpdate] ++ c3, .ok id)

/-- Mirrors `syncToSheets` (the `_Metadata`-aware variant): create the
spreadsheet when no id is stored (the new document's sheets start empty),
otherwise ensure the sheets exist; then `syncBody`. `now` is the single
`new Date().toISOString()` reading taken during the push. -/
def syncToSheets (st : AppState) (now : String) (data : SyncData) :
    AppState × List RemoteCall × Except String String :=
  match st.spreadsheetId with
  | none =>
    match st.faults.createFails with
    | some msg => (st, [.createSpreadsheet], .error msg)
    | none =>
      let id := st.remote.freshSpreadsheetId
      let st1 := { st with
                   spreadsheetId := some id,
                   remote := { st.remote with
                               companiesRows := [], projectsRows := [],
                               timeEntriesRows := [], invoicesRows := [],
                               profileRows := [], metadataRows := some [] } }
      syncBody st1 id now data [.createSpreadsheet]
  | some id =>
    match st.faults.ensureFails with
    | some msg => (st, [.getSpreadsheetMeta], .error msg)
    | none => syncBody st id now data [.getSpreadsheetMeta]

/-- Error classification of the `catch` in `doPush`: messages containing
`401` or (case-insensitively) `auth` surface as an auth-expiry error that
drops `isConnected`; everything else keeps the transport message. -/
def classifyPushError (s : SyncStatus) (msg : String) : SyncStatus :=
  if containsStr msg "401" || containsStr msg.toLower "auth" then
    { s with state := .error,
             lastError := some "Auth expired. Reconnect in Settings.",
             isConnected := false }
  else { s with state := .error, lastError := some msg }

/-- The `try` block of `doPush`: re-read the spreadsheet id; refuse to push an
empty local dataset (companies and time entries both empty) and return to
idle; otherwise detect a conflict, on conflict merge, write the merged
snapshot back into the Entity Store and push it, else push the local
snapshot; on success go idle, record `lastPushAt` and `isConnected`. -/
def doPushBody (st : AppState) (now : String) :
    AppState × List RemoteCall × Except String Unit :=
  match st.spreadsheetId with
  | none => (st, [], .ok ())
  | some spreadsheetId =>
    if st.store.companies.isEmpty && st.store.timeEntries.isEmpty then
      (if st.mounted then
        { st with status := { st.status with state := .idle } }
       else st, [], .ok ())
    else
      let localData : SyncData := st.store
      match checkForConflict st spreadsheetId with
      | (st1, calls1, .error msg) => (st1, calls1, .error msg)
      | (st1, calls1, .ok (hasConflict, remoteData)) =>
        match hasConflict, remoteData with
        | true, some remote =>
          let st2 := if st1.mounted then
              { st1 with status := { st1.status with state := .conflict } }
            else st1
          let merged := mergeData localData remote
          let st3 := writeAll st2 merged
          match syncToSheets st3 now merged with
          | (st4, calls2, .error msg) => (st4, calls1 ++ calls2, .error msg)
          | (st4, calls2, .ok _) =>
            (if st4.mounted then
              { st4 with status := { st4.status with
                  state := .idle, lastPushAt := some now, isConnected := true } }
             else st4, calls1 ++ calls2, .ok ())
        | _, _ =>
          match syncToSheets st1 now localData with
          | (st4, calls2, .error msg) => (st4, calls1 ++ calls2, .error msg)
          | (st4, calls2, .ok _) =>
            (if st4.mounted then
              { st4 with status := { st4.status with
                  state := .idle, lastPushAt := some now, isConnected := true } }
             else st4, calls1 ++ calls2, .ok ())

/-- The `catch`/`finally` tail of `doPush`: a failure of the body is
classified into the status (when still mounted), and the in-flight flag is
dropped on every path. -/
def doPushFinish (r : AppState × List RemoteCall × Except String Unit) :
    AppState × List RemoteCall :=
  match r with
  | (st', calls, .ok _) => ({ st' with pushing := false }, calls)
  | (st', calls, .error msg) =>
    let st'' := if st'.mounted then
        { st' with status := classifyPushError st'.status msg }
      else st'
    ({ st'' with pushing := false }, calls)

/-- Mirrors `doPush` (src/contexts/SyncContext.tsx): ignore the request when a
push is already in flight, no spreadsheet is configured, or no valid token is
held; otherwise raise the in-flight flag, set `pushing` status, run the body,
classify any failure, and always drop the in-flight flag (`finally`). -/
def doPush (st : AppState) (now : String) : AppState × List RemoteCall :=
  if st.pushing then (st, [])
  else
    match st.spreadsheetId with
    | none => (st, [])
    | some _ =>
      if !st.hasToken then (st, [])
      else
        let st0 := { st with
                     pushing := true,
                     status := { st.status with state := .pushing, lastError := none } }
        doPushFinish (doPushBody st0 now)

deriving instance DecidableEq for Except

/-! ### Validity predicates ("valid records": well-formed values of the TS
types — literal-union fields hold one of their literals, optional string
fields are absent rather than empty, spreadsheet-separator characters do not
occur inside ids). -/

def validCompany (c : Company) : Prop :=
  c.currency ∈ (["USD", "EUR", "GBP"] : List String) ∧
  c.billingType ∈ (["hourly", "fixed_monthly"] : List String) ∧
  c.paymentTerms ≠ some "" ∧ c.paymentMethod ≠ some "" ∧
  c.contactName ≠ some "" ∧ c.contactEmail ≠ some "" ∧ c.notes ≠ some ""

instance : DecidablePred validCompany := fun c => by
  unfold validCompany; infer_instance

def validTimeEntry (e : TimeEntry) : Prop :=
  e.projectId ≠ some "" ∧ e.paidDate ≠ some ""

instance : DecidablePred validTimeEntry := fun e => by
  unfold validTimeEntry; infer_instance

def validInvoice (i : Invoice) : Prop :=
  i.currency ∈ (["USD", "EUR", "GBP"] : List String) ∧
  i.status ∈ (["draft", "sent", "paid"] : List String) ∧
  i.invoiceNumber ≠ some "" ∧ i.paidDate ≠ some "" ∧ i.notes ≠ some "" ∧
  i.billingType ≠ some "" ∧ i.retainerMonth ≠ some "" ∧
  ∀ tid ∈ i.timeEntryIds, tid ≠ "" ∧ ';' ∉ tid.data

instance : DecidablePred validInvoice := fun i => by
  unfold validInvoice; infer_instance

def validProfile (p : BusinessProfile) : Prop :=
  p.routingNumber ≠ some "" ∧ p.swiftCode ≠ some "" ∧ p.accountNumber ≠ some ""

instance : DecidablePred validProfile := fun p => by
  unfold validProfile; infer_instance

/-- The normalization the reverse invoice mapper applies: an absent
`billingType` comes back as `'hourly'`; every other field is reproduced. -/
def normalizeInvoice (i : Invoice) : Invoice :=
  { i with billingType := some (i.billingType.getD "hourly") }

/-! ### Concrete sample values (used by witnesses and counterexamples) -/

def sampleCompany : Company :=
  { id := "c1", name := "Acme", currency := "USD", billingType := "hourly",
    hourlyRate := 150, monthlyRate := none, nextInvoiceNumber := some 3,
    invoiceRequired := true, paymentTerms := some "Net 30", paymentMethod := none,
    contactName := none, contactEmail := none, notes := none, isActive := true,
    createdAt := "2024-01-01", updatedAt := "2024-02-01" }

def sampleEntry : TimeEntry :=
  { id := "t1", companyId := "c1", projectId := none, date := "2024-01-05",
    hours := 3, fixedAmount := some 0, description := "work", paidDate := none,
    createdAt := "2024-01-05", updatedAt := "2024-01-06" }

/-- An invoice whose optional `billingType` is absent — a valid record. -/
def sampleInvoiceNoBilling : Invoice :=
  { id := "i1", companyId := "c1", invoiceNumber := none,
    invoiceDate := "2024-03-01", timeEntryIds := ["t1", "t2"], totalHours := 10,
    totalAmount := 1500, currency := "USD", rateUsed := 150, status := "draft",
    paidDate := none, notes := none, billingType := none, retainerMonth := none,
    exchangeRateToUSD := none, createdAt := "2024-03-01", updatedAt := "2024-03-02" }

def sampleProfile : BusinessProfile :=
  { name := "Me LLC", address := "1 Road", email := "a@b.c", phone := "555",
    ein := "12-3456789", routingNumber := none, swiftCode := some "ABCDEF",
    accountNumber := none }

def sampleData : SyncData :=
  { companies := [sampleCompany], projects := [], timeEntries := [sampleEntry],
    invoices := [sampleInvoiceNoBilling], profile := sampleProfile }

def emptyStore : SyncData :=
  { companies := [], projects := [], timeEntries := [], invoices := [],
    profile := sampleProfile }

/-- A populated remote document whose `lastModified` marker reads `2025-01-01`. -/
def sampleRemote : RemoteDoc :=
  { companiesRows := companiesToRows [sampleCompany],
    projectsRows := projectsToRows [],
    timeEntriesRows := timeEntriesToRows [sampleEntry],
    invoicesRows := invoicesToRows [sampleInvoiceNoBilling],
    profileRows := profileToRows sampleProfile,
    metadataRows := some [["Key", "Value"], ["lastModified", "2025-01-01"]],
    freshSpreadsheetId := "fresh-id" }

def noFaults : RemoteFaults :=
  { metaReadFails := false, pullFails := none, createFails := none,
    ensureFails := none, writeFails := none, metaWriteFails := none }

/-- A healthy connected state: idle, token held, document configured. -/
def sampleState : AppState :=
  { pushing := false, mounted := true, hasToken := true,
    status := { state := .idle, isConnected := true, lastPushAt := none,
                lastError := none },
    spreadsheetId := some "sheet-1", lastSyncTime := some "2024-06-01",
    store := sampleData, remote := sampleRemote, faults := noFaults }

def sampleProject : Project :=
  { id := "p1", companyId := "c1", name := "Migration", isActive := true,
    createdAt := "2024-01-02", updatedAt := "2024-01-03" }

/-- First-sync situation: no local `lastSyncTime`. -/
def firstSyncState : AppState :=
  { sampleState with lastSyncTime := none }

/-- Legacy remote document: no `_Metadata` sheet. -/
def legacyState : AppState :=
  { sampleState with remote := { sampleRemote with metadataRows := none } }

/-- Local `lastSyncTime` ahead of the remote marker: no conflict. -/
def upToDateState : AppState :=
  { sampleState with lastSyncTime := some "2025-06-01" }

/-- A transport failure on the metadata read, while the remote marker is in
fact present and newer than the local `lastSyncTime`. -/
def readErrorState : AppState :=
  { sampleState with faults := { noFaults with metaReadFails := true } }

/-- Connected state whose Entity Store is completely empty. -/
def emptyStoreState : AppState :=
  { sampleState with store := emptyStore }

/-- Companies and time entries empty, but projects and invoices populated. -/
def partialStoreState : AppState :=
  { sampleState with store :=
      { emptyStore with projects := [sampleProject],
                        invoices := [sampleInvoiceNoBilling] } }

/-- A push already in flight. -/
def inflightState : AppState :=
  { sampleState with pushing := true }

/-- Connected but with no spreadsheet configured. -/
def noDocState : AppState :=
  { sampleState with spreadsheetId := none }

/-! ### Helper lemmas: decimal serialization round-trips -/

theorem digitVal_digitChar (d : Nat) (h : d < 10) :
    digitVal (Nat.digitChar d) = some d := by
  interval_cases d <;> rfl

theorem parseNatAcc_natToCharsAux (fuel : Nat) :
    ∀ (n acc : Nat) (rest : List Char), n < 10 ^ fuel →
      parseNatAcc acc (natToCharsAux fuel n ++ rest) =
        parseNatAcc (acc * 10 ^ (natToCharsAux fuel n).length + n) rest := by
  induction fuel with
  | zero =>
    intro n acc rest h
    have hn : n = 0 := by simpa using Nat.lt_one_iff.mp (by simpa using h)
    subst hn
    simp [natToCharsAux]
  | succ fuel ih =>
    intro n acc rest h
    by_cases hn : n < 10
    · simp only [natToCharsAux, if_pos hn, List.cons_append, List.nil_append,
        List.length_cons, List.length_nil, parseNatAcc,
        digitVal_digitChar n hn, pow_one]
      norm_num
    · have hdiv : n / 10 < 10 ^ fuel := by
        rw [Nat.div_lt_iff_lt_mul (by omega)]
        calc n < 10 ^ (fuel + 1) := h
          _ = 10 ^ fuel * 10 := by rw [pow_succ]
      simp only [natToCharsAux, if_neg hn, List.append_assoc, List.cons_append,
        List.nil_append]
      rw [ih (n / 10) acc (Nat.digitChar (n % 10) :: rest) hdiv]
      simp only [parseNatAcc, digitVal_digitChar (n % 10) (Nat.mod_lt n (by omega)),
        List.length_append, List.length_cons, List.length_nil]
      congr 1
      generalize (natToCharsAux fuel (n / 10)).length = l
      have : 10 * (n / 10) + n % 10 = n := Nat.div_add_mod n 10
      ring_nf
      omega

theorem natToCharsAux_ne_nil (fuel n : Nat) : natToCharsAux (fuel + 1) n ≠ [] := by
  by_cases hn : n < 10 <;> simp [natToCharsAux, hn]

theorem parseNatChars_natToChars (n : Nat) :
    parseNatChars (natToChars n) = some n := by
  have hne := natToCharsAux_ne_nil n n
  have hlt : n < 10 ^ (n + 1) :=
    lt_of_lt_of_le (Nat.lt_pow_self (by omega) n)
      (Nat.pow_le_pow_right (by omega) (by omega))
  have key := parseNatAcc_natToCharsAux (n + 1) n 0 [] hlt
  rw [List.append_nil] at key
  unfold natToChars parseNatChars
  cases hcs : natToCharsAux (n + 1) n with
  | nil => exact absurd hcs hne
  | cons c cs =>
    rw [hcs] at key
    simpa using key

theorem natCell_ne_empty (n : Nat) : natCell n ≠ "" := by
  unfold natCell
  intro h
  exact natToCharsAux_ne_nil n n (by simpa [natToChars] using congrArg String.data h)

theorem parseFloatD_natCell (n : Nat) : parseFloatD (natCell n) = n := by
  unfold parseFloatD natCell
  rw [show (String.mk (natToChars n)).data = natToChars n from rfl,
    parseNatChars_natToChars]
  rfl

/-! ### Helper lemmas: `split(';')` / `join(';')` round-trip -/

theorem splitSemChars_ne_nil (cs : List Char) : splitSemChars cs ≠ [] := by
  induction cs with
  | nil => simp [splitSemChars]
  | cons c cs ih =>
    unfold splitSemChars
    cases h : splitSemChars cs with
    | nil => simp
    | cons a as => by_cases hc : c = ';' <;> simp [hc]

theorem splitSemChars_append (p cs : List Char) (a : List Char) (as : List (List Char))
    (hp : ';' ∉ p) (h : splitSemChars cs = a :: as) :
    splitSemChars (p ++ cs) = (p ++ a) :: as := by
  induction p with
  | nil => simpa using h
  | cons c p ih =>
    have hc : c ≠ ';' := fun hc => hp (by simp [hc])
    have hp' : ';' ∉ p := fun hmem => hp (by simp [hmem])
    have ih' := ih hp'
    simp only [List.cons_append, splitSemChars, List.append_eq]
    rw [ih']
    simp [hc]

theorem splitSem_joinSem (p : List Char) (ps : List (List Char))
    (h : ∀ q ∈ p :: ps, ';' ∉ q) :
    splitSemChars (joinSemChars (p :: ps)) = p :: ps := by
  induction ps generalizing p with
  | nil =>
    have hp : ';' ∉ p := h p (by simp)
    have : splitSemChars ([] : List Char) = [] :: [] := rfl
    have := splitSemChars_append p [] [] [] hp this
    simpa using this
  | cons q qs ih =>
    have hp : ';' ∉ p := h p (by simp)
    have hrest : ∀ r ∈ q :: qs, ';' ∉ r := fun r hr => h r (by simp [hr])
    have ihq := ih q hrest
    have hsplit : splitSemChars (';' :: joinSemChars (q :: qs)) = [] :: q :: qs := by
      unfold splitSemChars
      rw [ihq]
      simp
    have := splitSemChars_append p (';' :: joinSemChars (q :: qs)) [] (q :: qs) hp hsplit
    have hjoin : joinSemChars (p :: q :: qs) = p ++ ';' :: joinSemChars (q :: qs) := rfl
    rw [hjoin, this]
    simp

theorem string_mk_data (s : String) : String.mk s.data = s := rfl

theorem jsSplit_jsJoin (ids : List String) (hne : ids ≠ [])
    (h : ∀ id ∈ ids, ';' ∉ id.data) :
    jsSplitSem (jsJoinSem ids) = ids := by
  cases ids with
  | nil => exact absurd rfl hne
  | cons i rest =>
    have hsep : ∀ q ∈ i.data :: rest.map String.data, ';' ∉ q := by
      intro q hq
      rcases List.mem_cons.mp hq with rfl | hq2
      · exact h i (by simp)
      · rcases List.mem_map.mp hq2 with ⟨s, hs, rfl⟩
        exact h s (by simp [hs])
    unfold jsSplitSem jsJoinSem
    rw [show (String.mk (joinSemChars ((i :: rest).map String.data))).data
        = joinSemChars ((i :: rest).map String.data) from rfl]
    rw [show ((i :: rest).map String.data) = i.data :: rest.map String.data from rfl]
    rw [splitSem_joinSem i.data (rest.map String.data) hsep]
    simp [Function.comp_def, string_mk_data]

theorem jsJoin_ne_empty (i : String) (rest : List String) (hi : i ≠ "") :
    jsJoinSem (i :: rest) ≠ "" := by
  unfold jsJoinSem
  intro hcontra
  have hdata : joinSemChars ((i :: rest).map String.data) = [] := by
    simpa using congrArg String.data hcontra
  have hidata : i.data ≠ [] := by
    intro hd
    exact hi (by cases i with | mk l => simp at hd; simp [hd])
  cases rest with
  | nil => exact hidata (by simpa [joinSemChars] using hdata)
  | cons q qs =>
    rw [show ((i :: q :: qs).map String.data)
        = i.data :: (q :: qs).map String.data from rfl] at hdata
    rw [show joinSemChars (i.data :: (q :: qs).map String.data)
        = i.data ++ ';' :: joinSemChars ((q :: qs).map String.data) from rfl] at hdata
    simp at hdata

/-! ### Helper lemmas: single-field round-trips -/

theorem cellOrNone_orEmpty (o : Option String) (h : o ≠ some "") :
    cellOrNone (orEmpty o) = o := by
  cases o with
  | none => rfl
  | some s =>
    have hs : s ≠ "" := fun hrfl => h (by rw [hrfl])
    simp [cellOrNone, orEmpty, hs]

theorem optNatCell_roundtrip (o : Option Nat) :
    (if optNatCell o = "" then none
     else some ((parseNatChars (optNatCell o).data).getD 0)) = o := by
  cases o with
  | none => rfl
  | some n =>
    rw [if_neg (by simpa [optNatCell] using natCell_ne_empty n)]
    have := parseFloatD_natCell n
    simpa [optNatCell, parseFloatD] using this

theorem yesNo_ne_no (b : Bool) : (!(boolToYesNo b == "No")) = b := by
  cases b <;> rfl

theorem yesNo_eq_yes (b : Bool) : (boolToYesNo b == "Yes") = b := by
  cases b <;> rfl

/-! ### Helper lemmas: the JS `Map` association list -/

theorem mapGet_mapSet_self {α : Type} (m : List (String × α)) (k : String) (v : α) :
    mapGet (mapSet m k v) k = some v := by
  unfold mapSet
  by_cases hany : m.any (fun p => p.1 == k)
  · rw [if_pos hany]
    unfold mapGet
    induction m with
    | nil => simp at hany
    | cons p rest ih =>
      by_cases hp : p.1 == k
      · simp [List.find?, hp]
      · have hrest : rest.any (fun q => q.1 == k) := by
          rcases List.any_eq_true.mp hany with ⟨q, hq, hqk⟩
          rcases List.mem_cons.mp hq with rfl | hq2
          · exact absurd hqk (by simpa using hp)
          · exact List.any_eq_true.mpr ⟨q, hq2, hqk⟩
        simpa [List.find?, hp] using ih hrest
  · rw [if_neg hany]
    unfold mapGet
    have hnone : m.find? (fun p => p.1 == k) = none := by
      rw [List.find?_eq_none]
      intro p hp hpk
      exact hany (List.any_eq_true.mpr ⟨p, hp, hpk⟩)
    rw [List.find?_append, hnone]
    simp [List.find?]

theorem mapGet_mapSet_ne {α : Type} (m : List (String × α)) (k k' : String) (v : α)
    (h : k' ≠ k) :
    mapGet (mapSet m k v) k' = mapGet m k' := by
  have hk'k : ((k' : String) == k) = false := beq_eq_false_iff_ne.mpr h
  have hbeq : ((k : String) == k') = false :=
    beq_eq_false_iff_ne.mpr (fun hrfl => h hrfl.symm)
  unfold mapSet
  by_cases hany : m.any (fun p => p.1 == k)
  · rw [if_pos hany]
    unfold mapGet
    rw [List.find?_map]
    have hpred : ((fun p => p.1 == k') ∘ (fun (p : String × α) => if p.1 == k then (k, v) else p))
        = (fun (p : String × α) => p.1 == k') := by
      funext p
      by_cases hp : p.1 == k
      · have hp1 : p.1 = k := by simpa using hp
        simp [Function.comp, hp, hp1]
      · simp [Function.comp, hp]
    rw [hpred]
    cases hfind : m.find? (fun p => p.1 == k') with
    | none => simp
    | some p =>
      have hpk' : (p.1 == k') = true := by simpa using List.find?_some hfind
      have hp1 : p.1 = k' := by simpa using hpk'
      have hpk : p.1 ≠ k := by rw [hp1]; exact h
      simp [hpk]
  · rw [if_neg hany]
    unfold mapGet
    rw [List.find?_append]
    cases hfind : m.find? (fun p => p.1 == k') with
    | some p => simp
    | none => simp [List.find?, hbeq]

/-! ### Helper lemmas: the two folds inside `mergeArray` -/

theorem mem_mapSet {α : Type} (m : List (String × α)) (k : String) (v : α) :
    ∀ p ∈ mapSet m k v, p ∈ m ∨ p = (k, v) := by
  intro p hp
  unfold mapSet at hp
  by_cases hany : m.any (fun q => q.1 == k)
  · rw [if_pos hany] at hp
    rcases List.mem_map.mp hp with ⟨q, hq, rfl⟩
    by_cases hqk : q.1 == k
    · right; simp [hqk]
    · left; simpa [hqk] using hq
  · rw [if_neg hany] at hp
    rcases List.mem_append.mp hp with hp | hp
    · exact Or.inl hp
    · exact Or.inr (by simpa using hp)

theorem seedFold_invariant {T : Type} (idOf : T → String) (recs : List T)
    (m0 : List (String × T)) (h0 : ∀ p ∈ m0, idOf p.2 = p.1) :
    ∀ p ∈ recs.foldl (fun m rec => mapSet m (idOf rec) rec) m0, idOf p.2 = p.1 := by
  induction recs generalizing m0 with
  | nil => exact h0
  | cons r rest ih =>
    refine ih (mapSet m0 (idOf r) r) ?h
    intro p hp
    rcases mem_mapSet m0 (idOf r) r p hp with hp | rfl
    · exact h0 p hp
    · rfl

theorem overlayFold_invariant {T : Type} (idOf updOf : T → String) (recs : List T)
    (m0 : List (String × T)) (h0 : ∀ p ∈ m0, idOf p.2 = p.1) :
    ∀ p ∈ recs.foldl
      (fun m rec =>
        match mapGet m (idOf rec) with
        | none => mapSet m (idOf rec) rec
        | some existing =>
          if !jsLtStr (updOf rec) (updOf existing) then mapSet m (idOf rec) rec else m)
      m0, idOf p.2 = p.1 := by
  induction recs generalizing m0 with
  | nil => exact h0
  | cons r rest ih =>
    refine ih _ ?h
    intro p hp
    have core : ∀ m1 : List (String × T), (∀ q ∈ m1, idOf q.2 = q.1) →
        p ∈ mapSet m1 (idOf r) r → idOf p.2 = p.1 := by
      intro m1 h1 hmem
      rcases mem_mapSet m1 (idOf r) r p hmem with hmem | rfl
      · exact h1 p hmem
      · rfl
    cases hget : mapGet m0 (idOf r) with
    | none =>
      simp only [hget] at hp
      exact core m0 h0 hp
    | some existing =>
      simp only [hget] at hp
      by_cases hcmp : (!jsLtStr (updOf r) (updOf existing)) = true
      · rw [if_pos hcmp] at hp
        exact core m0 h0 hp
      · rw [if_neg hcmp] at hp
        exact h0 p hp

theorem seedFold_get_ne_none {T : Type} (idOf : T → String) (recs : List T)
    (m0 : List (String × T)) (x : String) :
    mapGet (recs.foldl (fun m rec => mapSet m (idOf rec) rec) m0) x ≠ none ↔
      x ∈ recs.map idOf ∨ mapGet m0 x ≠ none := by
  induction recs generalizing m0 with
  | nil => simp
  | cons r rest ih =>
    simp only [List.foldl_cons, List.map_cons, List.mem_cons]
    rw [ih (mapSet m0 (idOf r) r)]
    by_cases hx : x = idOf r
    · subst hx
      rw [mapGet_mapSet_self]
      simp
    · rw [mapGet_mapSet_ne m0 (idOf r) x r hx]
      constructor
      · rintro (h | h)
        · exact Or.inl (Or.inr h)
        · exact Or.inr h
      · rintro ((h | h) | h)
        · exact absurd h hx
        · exact Or.inl h
        · exact Or.inr h

theorem overlayStep_get_ne {T : Type} (idOf updOf : T → String) (r : T)
    (m : List (String × T)) (x : String) (hx : x ≠ idOf r) :
    mapGet (match mapGet m (idOf r) with
      | none => mapSet m (idOf r) r
      | some existing =>
        if !jsLtStr (updOf r) (updOf existing) then mapSet m (idOf r) r else m) x
      = mapGet m x := by
  cases hget : mapGet m (idOf r) with
  | none => exact mapGet_mapSet_ne m (idOf r) x r hx
  | some existing =>
    show mapGet (if !jsLtStr (updOf r) (updOf existing) then mapSet m (idOf r) r else m) x = mapGet m x
    by_cases hcmp : (!jsLtStr (updOf r) (updOf existing)) = true
    · rw [if_pos hcmp]
      exact mapGet_mapSet_ne m (idOf r) x r hx
    · rw [if_neg hcmp]

theorem overlayStep_get_self_ne_none {T : Type} (idOf updOf : T → String) (r : T)
    (m : List (String × T)) :
    mapGet (match mapGet m (idOf r) with
      | none => mapSet m (idOf r) r
      | some existing =>
        if !jsLtStr (updOf r) (updOf existing) then mapSet m (idOf r) r else m) (idOf r)
      ≠ none := by
  cases hget : mapGet m (idOf r) with
  | none =>
    show mapGet (mapSet m (idOf r) r) (idOf r) ≠ none
    rw [mapGet_mapSet_self]
    simp
  | some existing =>
    show mapGet (if !jsLtStr (updOf r) (updOf existing) then mapSet m (idOf r) r else m) (idOf r) ≠ none
    by_cases hcmp : (!jsLtStr (updOf r) (updOf existing)) = true
    · rw [if_pos hcmp, mapGet_mapSet_self]
      simp
    · rw [if_neg hcmp, hget]
      simp

theorem overlayFold_get_ne_none {T : Type} (idOf updOf : T → String) (recs : List T)
    (m0 : List (String × T)) (x : String) :
    mapGet (recs.foldl
      (fun m rec =>
        match mapGet m (idOf rec) with
        | none => mapSet m (idOf rec) rec
        | some existing =>
          if !jsLtStr (updOf rec) (updOf existing) then mapSet m (idOf rec) rec else m)
      m0) x ≠ none ↔
      x ∈ recs.map idOf ∨ mapGet m0 x ≠ none := by
  induction recs generalizing m0 with
  | nil => simp
  | cons r rest ih =>
    simp only [List.foldl_cons, List.map_cons, List.mem_cons]
    rw [ih]
    by_cases hx : x = idOf r
    · subst hx
      constructor
      · intro hmem
        exact Or.inl (Or.inl rfl)
      · intro hmem
        exact Or.inr (overlayStep_get_self_ne_none idOf updOf r m0)
    · rw [overlayStep_get_ne idOf updOf r m0 x hx]
      constructor
      · rintro (h | h)
        · exact Or.inl (Or.inr h)
        · exact Or.inr h
      · rintro ((h | h) | h)
        · exact absurd h hx
        · exact Or.inl h
        · exact Or.inr h

theorem seedFold_get_skip {T : Type} (idOf : T → String) (recs : List T)
    (m0 : List (String × T)) (x : String) (hx : x ∉ recs.map idOf) :
    mapGet (recs.foldl (fun m rec => mapSet m (idOf rec) rec) m0) x = mapGet m0 x := by
  induction recs generalizing m0 with
  | nil => rfl
  | cons r rest ih =>
    have hxr : x ≠ idOf r := fun hrfl => hx (by simp [hrfl])
    have hxrest : x ∉ rest.map idOf := fun hmem => hx (by simp [hmem])
    simp only [List.foldl_cons]
    rw [ih (mapSet m0 (idOf r) r) hxrest, mapGet_mapSet_ne m0 (idOf r) x r hxr]

theorem seedFold_get_found {T : Type} (idOf : T → String) (recs : List T)
    (x : String) (rrec : T) :
    (recs.map idOf).Nodup → rrec ∈ recs → idOf rrec = x →
    ∀ m0 : List (String × T),
      mapGet (recs.foldl (fun m rec => mapSet m (idOf rec) rec) m0) x = some rrec := by
  induction recs with
  | nil => intro _ hmem; simp at hmem
  | cons r rest ih =>
    intro hnd hmem hid m0
    simp only [List.foldl_cons]
    rcases List.mem_cons.mp hmem with rfl | hmem2
    · have hxrest : x ∉ rest.map idOf := by
        rw [← hid]
        exact (List.nodup_cons.mp (by simpa using hnd)).1
      rw [seedFold_get_skip idOf rest (mapSet m0 (idOf rrec) rrec) x hxrest, ← hid,
        mapGet_mapSet_self]
    · exact ih (List.nodup_cons.mp (by simpa using hnd)).2 hmem2 hid (mapSet m0 (idOf r) r)

theorem overlayFold_get_skip {T : Type} (idOf updOf : T → String) (recs : List T)
    (m0 : List (String × T)) (x : String) (hx : x ∉ recs.map idOf) :
    mapGet (recs.foldl
      (fun m rec =>
        match mapGet m (idOf rec) with
        | none => mapSet m (idOf rec) rec
        | some existing =>
          if !jsLtStr (updOf rec) (updOf existing) then mapSet m (idOf rec) rec else m)
      m0) x = mapGet m0 x := by
  induction recs generalizing m0 with
  | nil => rfl
  | cons r rest ih =>
    have hxr : x ≠ idOf r := fun hrfl => hx (by simp [hrfl])
    have hxrest : x ∉ rest.map idOf := fun hmem => hx (by simp [hmem])
    simp only [List.foldl_cons]
    rw [ih _ hxrest, overlayStep_get_ne idOf updOf r m0 x hxr]

theorem overlayFold_get_found {T : Type} (idOf updOf : T → String) (recs : List T)
    (x : String) (lrec rrec : T) :
    (recs.map idOf).Nodup → lrec ∈ recs → idOf lrec = x →
    ∀ m0 : List (String × T), mapGet m0 x = some rrec →
    mapGet (recs.foldl
      (fun m rec =>
        match mapGet m (idOf rec) with
        | none => mapSet m (idOf rec) rec
        | some existing =>
          if !jsLtStr (updOf rec) (updOf existing) then mapSet m (idOf rec) rec else m)
      m0) x = some (if !jsLtStr (updOf lrec) (updOf rrec) then lrec else rrec) := by
  induction recs with
  | nil => intro _ hmem; simp at hmem
  | cons r rest ih =>
    intro hnd hmem hid m0 hget
    simp only [List.foldl_cons]
    rcases List.mem_cons.mp hmem with rfl | hmem2
    · have hxrest : x ∉ rest.map idOf := by
        rw [← hid]
        exact (List.nodup_cons.mp (by simpa using hnd)).1
      rw [overlayFold_get_skip idOf updOf rest _ x hxrest, ← hid] at *
      rw [hget]
      show mapGet (if !jsLtStr (updOf lrec) (updOf rrec) then mapSet m0 (idOf lrec) lrec else m0)
        (idOf lrec) = some (if !jsLtStr (updOf lrec) (updOf rrec) then lrec else rrec)
      by_cases hcmp : (!jsLtStr (updOf lrec) (updOf rrec)) = true
      · rw [if_pos hcmp, if_pos hcmp, mapGet_mapSet_self]
      · rw [if_neg hcmp, if_neg hcmp, hget]
    · have hxr : x ≠ idOf r := by
        intro hrfl
        have h1 : idOf r ∈ rest.map idOf := by
          rw [← hrfl, ← hid]
          exact List.mem_map.mpr ⟨lrec, hmem2, rfl⟩
        exact (List.nodup_cons.mp (by simpa using hnd)).1 h1
      refine ih (List.nodup_cons.mp (by simpa using hnd)).2 hmem2 hid _ ?hg
      rw [overlayStep_get_ne idOf updOf r m0 x hxr]
      exact hget

theorem nodup_keys_mapSet {α : Type} (m : List (String × α)) (k : String) (v : α)
    (h : (m.map (·.1)).Nodup) : ((mapSet m k v).map (·.1)).Nodup := by
  unfold mapSet
  by_cases hany : m.any (fun p => p.1 == k)
  · rw [if_pos hany]
    have hkeys : (m.map (fun p => if p.1 == k then (k, v) else p)).map (·.1)
        = m.map (·.1) := by
      rw [List.map_map]
      apply List.map_congr_left
      intro p hp
      by_cases hpk : p.1 == k
      · have : p.1 = k := by simpa using hpk
        simp [Function.comp, hpk, this]
      · simp [Function.comp, hpk]
    rw [hkeys]
    exact h
  · rw [if_neg hany]
    rw [List.map_append]
    apply List.Nodup.append h (by simp)
    intro a ha hb
    have : a = k := by simpa using hb
    subst this
    rcases List.mem_map.mp ha with ⟨p, hp, hpk⟩
    exact absurd (List.any_eq_true.mpr ⟨p, hp, by simpa using hpk⟩) hany

theorem mapGet_unique {α : Type} (m : List (String × α)) (x : String) (y z : α)
    (hnd : (m.map (·.1)).Nodup) (hmem : (x, y) ∈ m) (hget : mapGet m x = some z) :
    y = z := by
  induction m with
  | nil => simp at hmem
  | cons p rest ih =>
    by_cases hp : p.1 == x
    · have hz : p.2 = z := by
        unfold mapGet at hget
        simp [List.find?, hp] at hget
        exact hget
      rcases List.mem_cons.mp hmem with rfl | hmem2
      · exact hz
      · exfalso
        have hp1 : p.1 = x := by simpa using hp
        have hx1 : x ∈ rest.map (·.1) := List.mem_map.mpr ⟨(x, y), hmem2, rfl⟩
        rw [List.map_cons, List.nodup_cons, hp1] at hnd
        exact hnd.1 hx1
    · rcases List.mem_cons.mp hmem with rfl | hmem2
      · simp at hp
      · refine ih ?hnd hmem2 ?hget
        · exact (List.nodup_cons.mp (by simpa using hnd)).2
        · unfold mapGet at hget ⊢
          simpa [List.find?, hp] using hget

theorem seedFold_nodup_keys {T : Type} (idOf : T → String) (recs : List T)
    (m0 : List (String × T)) (h : (m0.map (·.1)).Nodup) :
    (((recs.foldl (fun m rec => mapSet m (idOf rec) rec) m0)).map (·.1)).Nodup := by
  induction recs generalizing m0 with
  | nil => exact h
  | cons r rest ih =>
    exact ih (mapSet m0 (idOf r) r) (nodup_keys_mapSet m0 (idOf r) r h)

theorem overlayFold_nodup_keys {T : Type} (idOf updOf : T → String) (recs : List T)
    (m0 : List (String × T)) (h : (m0.map (·.1)).Nodup) :
    (((recs.foldl
      (fun m rec =>
        match mapGet m (idOf rec) with
        | none => mapSet m (idOf rec) rec
        | some existing =>
          if !jsLtStr (updOf rec) (updOf existing) then mapSet m (idOf rec) rec else m)
      m0)).map (·.1)).Nodup := by
  induction recs generalizing m0 with
  | nil => exact h
  | cons r rest ih =>
    refine ih _ ?hstep
    show ((match mapGet m0 (idOf r) with
      | none => mapSet m0 (idOf r) r
      | some existing =>
        if !jsLtStr (updOf r) (updOf existing) then mapSet m0 (idOf r) r
        else m0).map (fun p : String × T => p.1)).Nodup
    cases hget : mapGet m0 (idOf r) with
    | none => exact nodup_keys_mapSet m0 (idOf r) r h
    | some existing =>
      show ((if !jsLtStr (updOf r) (updOf existing) then mapSet m0 (idOf r) r
        else m0).map (fun p : String × T => p.1)).Nodup
      by_cases hcmp : (!jsLtStr (updOf r) (updOf existing)) = true
      · rw [if_pos hcmp]
        exact nodup_keys_mapSet m0 (idOf r) r h
      · rw [if_neg hcmp]
        exact h

theorem mapGet_ne_none_iff {α : Type} (m : List (String × α)) (x : String) :
    mapGet m x ≠ none ↔ ∃ p ∈ m, p.1 = x := by
  unfold mapGet
  rw [Ne, Option.map_eq_none', ← Ne, Option.ne_none_iff_isSome, List.find?_isSome]
  constructor
  · rintro ⟨p, hp, hpx⟩
    exact ⟨p, hp, by simpa using hpx⟩
  · rintro ⟨p, hp, hpx⟩
    exact ⟨p, hp, by simpa using hpx⟩

theorem mapGet_some_mem {α : Type} (m : List (String × α)) (x : String) (z : α)
    (h : mapGet m x = some z) : ∃ p ∈ m, p.1 = x ∧ p.2 = z := by
  unfold mapGet at h
  rcases Option.map_eq_some'.mp h with ⟨p, hfind, hz⟩
  refine ⟨p, List.mem_of_find?_eq_some hfind, ?hx, hz⟩
  simpa using List.find?_some hfind

theorem mergeArray_eq (T : Type) (idOf updOf : T → String) (L R : List T) :
    mergeArray idOf updOf L R = mapValues (L.foldl
      (fun m rec =>
        match mapGet m (idOf rec) with
        | none => mapSet m (idOf rec) rec
        | some existing =>
          if !jsLtStr (updOf rec) (updOf existing) then mapSet m (idOf rec) rec else m)
      (R.foldl (fun m rec => mapSet m (idOf rec) rec) [])) := rfl

theorem mem_ids_merged_iff {T : Type} (idOf updOf : T → String) (L R : List T)
    (x : String) :
    x ∈ (mergeArray idOf updOf L R).map idOf ↔ x ∈ L.map idOf ∨ x ∈ R.map idOf := by
  rw [mergeArray_eq]
  have hinv : ∀ p ∈ L.foldl
      (fun m rec =>
        match mapGet m (idOf rec) with
        | none => mapSet m (idOf rec) rec
        | some existing =>
          if !jsLtStr (updOf rec) (updOf existing) then mapSet m (idOf rec) rec else m)
      (R.foldl (fun m rec => mapSet m (idOf rec) rec) []), idOf p.2 = p.1 :=
    overlayFold_invariant idOf updOf L _
      (seedFold_invariant idOf R [] (by simp))
  rw [show ∀ m : List (String × T), (mapValues m).map idOf = m.map (fun p => idOf p.2)
    from fun m => by rw [mapValues, List.map_map]; rfl]
  constructor
  · intro hmem
    rcases List.mem_map.mp hmem with ⟨p, hp, hpx⟩
    have hkey : p.1 = x := by rw [← hpx]; exact (hinv p hp).symm ▸ rfl
    have : mapGet (L.foldl
      (fun m rec =>
        match mapGet m (idOf rec) with
        | none => mapSet m (idOf rec) rec
        | some existing =>
          if !jsLtStr (updOf rec) (updOf existing) then mapSet m (idOf rec) rec else m)
      (R.foldl (fun m rec => mapSet m (idOf rec) rec) [])) x ≠ none :=
      (mapGet_ne_none_iff _ x).mpr ⟨p, hp, hkey⟩
    have h2 := (overlayFold_get_ne_none idOf updOf L _ x).mp this
    rcases h2 with h2 | h2
    · exact Or.inl h2
    · have h3 := (seedFold_get_ne_none idOf R [] x).mp h2
      rcases h3 with h3 | h3
      · exact Or.inr h3
      · exact absurd rfl h3
  · intro hmem
    have hne : mapGet (L.foldl
      (fun m rec =>
        match mapGet m (idOf rec) with
        | none => mapSet m (idOf rec) rec
        | some existing =>
          if !jsLtStr (updOf rec) (updOf existing) then mapSet m (idOf rec) rec else m)
      (R.foldl (fun m rec => mapSet m (idOf rec) rec) [])) x ≠ none := by
      rw [overlayFold_get_ne_none]
      rcases hmem with hmem | hmem
      · exact Or.inl hmem
      · refine Or.inr ?hr
        rw [seedFold_get_ne_none]
        exact Or.inl hmem
    cases hget : mapGet (L.foldl
      (fun m rec =>
        match mapGet m (idOf rec) with
        | none => mapSet m (idOf rec) rec
        | some existing =>
          if !jsLtStr (updOf rec) (updOf existing) then mapSet m (idOf rec) rec else m)
      (R.foldl (fun m rec => mapSet m (idOf rec) rec) [])) x with
    | none => exact absurd hget hne
    | some z =>
      rcases mapGet_some_mem _ x z hget with ⟨p, hp, hpx, hpz⟩
      refine List.mem_map.mpr ⟨p, hp, ?hid⟩
      rw [hinv p hp, hpx]

theorem mergeArray_resolves {T : Type} (idOf updOf : T → String) (L R : List T)
    (X : String) (lrec rrec : T)
    (hndL : (L.map idOf).Nodup) (hndR : (R.map idOf).Nodup)
    (hl : lrec ∈ L) (hr : rrec ∈ R) (hlx : idOf lrec = X) (hrx : idOf rrec = X) :
    (if !jsLtStr (updOf lrec) (updOf rrec) then lrec else rrec) ∈ mergeArray idOf updOf L R ∧
    ∀ y ∈ mergeArray idOf updOf L R, idOf y = X →
      y = (if !jsLtStr (updOf lrec) (updOf rrec) then lrec else rrec) := by
  have hseed : mapGet (R.foldl (fun m rec => mapSet m (idOf rec) rec) []) X = some rrec :=
    seedFold_get_found idOf R X rrec hndR hr hrx []
  have hfinal : mapGet (L.foldl
      (fun m rec =>
        match mapGet m (idOf rec) with
        | none => mapSet m (idOf rec) rec
        | some existing =>
          if !jsLtStr (updOf rec) (updOf existing) then mapSet m (idOf rec) rec else m)
      (R.foldl (fun m rec => mapSet m (idOf rec) rec) [])) X
      = some (if !jsLtStr (updOf lrec) (updOf rrec) then lrec else rrec) :=
    overlayFold_get_found idOf updOf L X lrec rrec hndL hl hlx _ hseed
  have hnodup : ((L.foldl
      (fun m rec =>
        match mapGet m (idOf rec) with
        | none => mapSet m (idOf rec) rec
        | some existing =>
          if !jsLtStr (updOf rec) (updOf existing) then mapSet m (idOf rec) rec else m)
      (R.foldl (fun m rec => mapSet m (idOf rec) rec) [])).map (·.1)).Nodup :=
    overlayFold_nodup_keys idOf updOf L _
      (seedFold_nodup_keys idOf R [] (by simp))
  have hinv : ∀ p ∈ L.foldl
      (fun m rec =>
        match mapGet m (idOf rec) with
        | none => mapSet m (idOf rec) rec
        | some existing =>
          if !jsLtStr (updOf rec) (updOf existing) then mapSet m (idOf rec) rec else m)
      (R.foldl (fun m rec => mapSet m (idOf rec) rec) []), idOf p.2 = p.1 :=
    overlayFold_invariant idOf updOf L _
      (seedFold_invariant idOf R [] (by simp))
  rw [mergeArray_eq]
  constructor
  · rcases mapGet_some_mem _ X _ hfinal with ⟨p, hp, hpx, hpz⟩
    rw [← hpz]
    exact List.mem_map.mpr ⟨p, hp, rfl⟩
  · intro y hy hyx
    rcases List.mem_map.mp hy with ⟨p, hp, hpy⟩
    have hp1 : p.1 = X := by rw [← hyx, ← hpy]; exact (hinv p hp).symm
    have hXy : (X, y) ∈ L.foldl
        (fun m rec =>
          match mapGet m (idOf rec) with
          | none => mapSet m (idOf rec) rec
          | some existing =>
            if !jsLtStr (updOf rec) (updOf existing) then mapSet m (idOf rec) rec else m)
        (R.foldl (fun m rec => mapSet m (idOf rec) rec) []) := by
      have : p = (X, y) := by
        rcases p with ⟨pk, pv⟩
        simp only at hp1 hpy
        rw [hp1, hpy]
      rw [← this]
      exact hp
    exact mapGet_unique _ X y _ hnodup hXy hfinal

/-! ### Round-trip of the row mappers -/

theorem ifEmpty_some_orEmpty (o : Option String) (h : o ≠ some "") :
    (if orEmpty o = "" then none else some (orEmpty o)) = o := by
  cases o with
  | none => rfl
  | some s =>
    have hs : s ≠ "" := fun hrfl => h (by rw [hrfl])
    simp [orEmpty, hs]

theorem joinSplit_roundtrip (ids : List String)
    (h : ∀ id ∈ ids, id ≠ "" ∧ ';' ∉ id.data) :
    (if jsJoinSem ids = "" then [] else jsSplitSem (jsJoinSem ids)) = ids := by
  cases ids with
  | nil => rfl
  | cons i rest =>
    have hne : jsJoinSem (i :: rest) ≠ "" := jsJoin_ne_empty i rest (h i (by simp)).1
    rw [if_neg hne]
    exact jsSplit_jsJoin (i :: rest) (by simp) (fun id hid => (h id hid).2)

theorem projects_roundtrip (ps : List Project) :
    rowsToProjects (projectsToRows ps) = ps := by
  cases ps with
  | nil => rfl
  | cons p rest =>
    unfold projectsToRows rowsToProjects
    rw [if_neg (by simp)]
    simp only [List.drop_succ_cons, List.drop_zero, List.map_map]
    conv_rhs => rw [← List.map_id (p :: rest)]
    apply List.map_congr_left
    intro x hx
    cases x
    simp [cell, yesNo_ne_no]

theorem companies_roundtrip (cs : List Company) (h : ∀ c ∈ cs, validCompany c) :
    rowsToCompanies (companiesToRows cs) = cs := by
  cases cs with
  | nil => rfl
  | cons c rest =>
    unfold companiesToRows rowsToCompanies
    rw [if_neg (by simp)]
    have hbt : companiesHeader.contains "Billing Type" = true := by decide
    have hni : companiesHeader.contains "Next Invoice Number" = true := by decide
    simp only [List.headD_cons, hbt, hni, List.drop_succ_cons, List.drop_zero,
      List.map_map]
    conv_rhs => rw [← List.map_id (c :: rest)]
    apply List.map_congr_left
    intro x hx
    obtain ⟨h1, h2, h3, h4, h5, h6, h7⟩ := h x hx
    have hcur : x.currency ≠ "" := by
      intro he
      rw [he] at h1
      simp at h1
    have hbil : x.billingType ≠ "" := by
      intro he
      rw [he] at h2
      simp at h2
    cases x
    simp only at hcur hbil h3 h4 h5 h6 h7
    simp [cell, yesNo_ne_no, yesNo_eq_yes, cellOrNone_orEmpty _ h3,
      cellOrNone_orEmpty _ h4, cellOrNone_orEmpty _ h5, cellOrNone_orEmpty _ h6,
      cellOrNone_orEmpty _ h7, optNatCell_roundtrip, parseFloatD_natCell, hcur, hbil]

theorem timeEntries_roundtrip (es : List TimeEntry) (h : ∀ e ∈ es, validTimeEntry e) :
    rowsToTimeEntries (timeEntriesToRows es) = es := by
  cases es with
  | nil => rfl
  | cons e rest =>
    unfold timeEntriesToRows rowsToTimeEntries
    rw [if_neg (by simp)]
    simp only [List.drop_succ_cons, List.drop_zero, List.map_map]
    conv_rhs => rw [← List.map_id (e :: rest)]
    apply List.map_congr_left
    intro x hx
    obtain ⟨h1, h2⟩ := h x hx
    cases x
    simp only at h1 h2
    simp [cell, cellOrNone_orEmpty _ h1, cellOrNone_orEmpty _ h2,
      optNatCell_roundtrip, parseFloatD_natCell]

theorem invoices_roundtrip (invs : List Invoice) (h : ∀ i ∈ invs, validInvoice i) :
    rowsToInvoices (invoicesToRows invs) = invs.map normalizeInvoice := by
  cases invs with
  | nil => rfl
  | cons i rest =>
    unfold invoicesToRows rowsToInvoices
    rw [if_neg (by simp)]
    have hbt : invoicesHeader.contains "Billing Type" = true := by decide
    have hxr : invoicesHeader.contains "Exchange Rate to USD" = true := by decide
    simp only [List.headD_cons, hbt, hxr, List.drop_succ_cons, List.drop_zero,
      List.map_map]
    apply List.map_congr_left
    intro x hx
    obtain ⟨h1, h2, h3, h4, h5, h6, h7, h8⟩ := h x hx
    have hcur : x.currency ≠ "" := by
      intro he
      rw [he] at h1
      simp at h1
    have hst : x.status ≠ "" := by
      intro he
      rw [he] at h2
      simp at h2
    cases x with
    | mk vid vcomp vnum vdate vtids vth vta vcur vrate vstat vpaid vnotes vbill vret vxr vcr vup =>
    simp only at h3 h4 h5 h6 h7 h8 hcur hst
    cases vbill with
    | none =>
      simp [cell, normalizeInvoice, joinSplit_roundtrip vtids h8,
        cellOrNone_orEmpty _ h3, cellOrNone_orEmpty _ h4, cellOrNone_orEmpty _ h5,
        ifEmpty_some_orEmpty _ h7, optNatCell_roundtrip, parseFloatD_natCell,
        hcur, hst]
    | some b =>
      have hb : b ≠ "" := by
        intro hrfl
        rw [hrfl] at h6
        exact h6 rfl
      simp [cell, normalizeInvoice, joinSplit_roundtrip vtids h8,
        cellOrNone_orEmpty _ h3, cellOrNone_orEmpty _ h4, cellOrNone_orEmpty _ h5,
        ifEmpty_some_orEmpty _ h7, optNatCell_roundtrip, parseFloatD_natCell,
        hcur, hst, hb]

theorem profile_roundtrip (p : BusinessProfile) (h : validProfile p) :
    rowsToProfile (profileToRows p) = p := by
  obtain ⟨h1, h2, h3⟩ := h
  cases p with
  | mk a b c d e f g hh =>
    simp only at h1 h2 h3
    have key : rowsToProfile (profileToRows (BusinessProfile.mk a b c d e f g hh))
        = BusinessProfile.mk a b c d e (cellOrNone (orEmpty f))
            (cellOrNone (orEmpty g)) (cellOrNone (orEmpty hh)) := by
      simp [rowsToProfile, profileToRows, cell, mapSet, mapGet]
    rw [key, cellOrNone_orEmpty _ h1, cellOrNone_orEmpty _ h2, cellOrNone_orEmpty _ h3]

/-! ### Helper lemmas: the push orchestrator -/

theorem doPushFinish_pushing (r : AppState × List RemoteCall × Except String Unit) :
    (doPushFinish r).1.pushing = false := by
  rcases r with ⟨st', calls, exc⟩
  cases exc with
  | ok u => rfl
  | error msg => simp [doPushFinish]

theorem doPush_empty_guard_eq (st : AppState) (now sid : String)
    (hpush : st.pushing = false) (hsid : st.spreadsheetId = some sid)
    (htok : st.hasToken = true) (hm : st.mounted = true)
    (hc : st.store.companies = []) (ht : st.store.timeEntries = []) :
    doPush st now =
      ({ st with pushing := false,
                 status := { st.status with state := .idle, lastError := none } }, []) := by
  obtain ⟨pushing, mounted, hasToken, status, spreadsheetId, lastSyncTime, store, remote, faults⟩ := st
  obtain ⟨state, isConnected, lastPushAt, lastError⟩ := status
  simp only at hpush hsid htok hm hc ht
  subst hpush hsid htok hm
  simp [doPush, doPushBody, doPushFinish, hc, ht]

/-! ### The claims -/

/-- C1: for every local list `L` and remote list `R` of records of one
collection, the set of ids of `mergeArray(L, R)` equals the union of the ids
occurring in `L` and in `R` — every id present on either side appears in the
merged result and no other id does, so the merge never deletes a record. -/
theorem mergeArray_union_on_ids {T : Type} (idOf updOf : T → String)
    (L R : List T) (x : String) :
    x ∈ (mergeArray idOf updOf L R).map idOf ↔ x ∈ L.map idOf ∨ x ∈ R.map idOf :=
  mem_ids_merged_iff idOf updOf L R x

/-- C2: for an id `X` present in both lists (each list holding at most one
record per id), the merged result contains exactly one record with id `X`:
the local one when its `updatedAt` is greater than or equal to the remote
one's (strictly newer local wins, and ties favor the initiating device), and
the remote one when the remote `updatedAt` is strictly greater. -/
theorem mergeArray_newer_wins_ties_local {T : Type} (idOf updOf : T → String)
    (L R : List T) (X : String) (lrec rrec : T)
    (hndL : (L.map idOf).Nodup) (hndR : (R.map idOf).Nodup)
    (hl : lrec ∈ L) (hr : rrec ∈ R) (hlx : idOf lrec = X) (hrx : idOf rrec = X) :
    (if !jsLtStr (updOf lrec) (updOf rrec) then lrec else rrec) ∈ mergeArray idOf updOf L R ∧
    ∀ y ∈ mergeArray idOf updOf L R, idOf y = X →
      y = (if !jsLtStr (updOf lrec) (updOf rrec) then lrec else rrec) :=
  mergeArray_resolves idOf updOf L R X lrec rrec hndL hndR hl hr hlx hrx

theorem mergeArray_newer_wins_ties_local_witness :
    ((if !jsLtStr (Prod.snd (("x", "2025-05-05") : String × String))
          (Prod.snd (("x", "2024-01-01") : String × String))
      then (("x", "2025-05-05") : String × String) else ("x", "2024-01-01"))
        ∈ mergeArray Prod.fst Prod.snd [("x", "2025-05-05")] [("x", "2024-01-01")]) ∧
    ∀ y ∈ mergeArray Prod.fst Prod.snd [("x", "2025-05-05")] [("x", "2024-01-01")],
      Prod.fst y = "x" →
        y = (if !jsLtStr (Prod.snd (("x", "2025-05-05") : String × String))
                (Prod.snd (("x", "2024-01-01") : String × String))
             then (("x", "2025-05-05") : String × String) else ("x", "2024-01-01")) :=
  mergeArray_newer_wins_ties_local Prod.fst Prod.snd
    [("x", "2025-05-05")] [("x", "2024-01-01")] "x" ("x", "2025-05-05") ("x", "2024-01-01")
    (by decide) (by decide) (by decide) (by decide) rfl rfl

/-- C3: for every local and remote snapshot, `mergeData(L, R).profile` is
exactly the local profile, whatever the remote profile holds — the profile
singleton is never subjected to the per-record merge. -/
theorem mergeData_profile_is_local (l r : SyncData) :
    (mergeData l r).profile = l.profile := rfl

/-- C4: `checkForConflict` reports no conflict when the local `lastSyncTime`
is absent (first sync) or the remote `lastModified` marker is absent (legacy
document); with both present it reports a conflict exactly when the remote
marker is strictly greater than the local `lastSyncTime`, and in that case
it fetches and returns the full remote snapshot for merging. -/
theorem checkForConflict_spec (st : AppState) (sid : String) :
    (st.lastSyncTime = none → checkForConflict st sid = (st, [], .ok (false, none)))
    ∧ (∀ lls, st.lastSyncTime = some lls →
        (readRemoteLastModified (metaFetch st.remote st.faults) = none →
          checkForConflict st sid = (st, [.metadataGet], .ok (false, none)))
        ∧ (∀ rlm, readRemoteLastModified (metaFetch st.remote st.faults) = some rlm →
            (jsLtStr lls rlm = false →
              checkForConflict st sid = (st, [.metadataGet], .ok (false, none)))
            ∧ (jsLtStr lls rlm = true → ∀ sid2, st.spreadsheetId = some sid2 →
                st.faults.pullFails = none →
                checkForConflict st sid =
                  ({ st with lastSyncTime := some rlm },
                   [.metadataGet, .valuesBatchGet, .metadataGet],
                   .ok (true, some (remoteParsed st)))))) := by
  refine ⟨?h1, ?h2⟩
  case h1 =>
    intro h0
    simp [checkForConflict, h0]
  case h2 =>
    intro lls hlls
    refine ⟨?h2a, ?h2b⟩
    case h2a =>
      intro hnone
      simp [checkForConflict, hlls, hnone]
    case h2b =>
      intro rlm hsome
      refine ⟨?hneg, ?hpos⟩
      case hneg =>
        intro hnotlt
        simp [checkForConflict, hlls, hsome, hnotlt]
      case hpos =>
        intro hlt sid2 hsid2 hpf
        simp [checkForConflict, pullFromSheets, hlls, hsome, hlt, hsid2, hpf]

theorem checkForConflict_spec_witness :
    checkForConflict firstSyncState "sheet-1" = (firstSyncState, [], .ok (false, none))
    ∧ checkForConflict legacyState "sheet-1"
        = (legacyState, [.metadataGet], .ok (false, none))
    ∧ checkForConflict upToDateState "sheet-1"
        = (upToDateState, [.metadataGet], .ok (false, none))
    ∧ checkForConflict sampleState "sheet-1"
        = ({ sampleState with lastSyncTime := some "2025-01-01" },
           [.metadataGet, .valuesBatchGet, .metadataGet],
           .ok (true, some (remoteParsed sampleState))) :=
  ⟨(checkForConflict_spec firstSyncState "sheet-1").1 rfl,
   ((checkForConflict_spec legacyState "sheet-1").2 "2024-06-01" rfl).1 rfl,
   (((checkForConflict_spec upToDateState "sheet-1").2 "2025-06-01" rfl).2
      "2025-01-01" rfl).1 (by decide),
   ((((checkForConflict_spec sampleState "sheet-1").2 "2024-06-01" rfl).2
      "2025-01-01" rfl).2 (by decide)) "sheet-1" rfl rfl⟩

/-- C5 (observed behaviour at the failing input): with the local
`lastSyncTime` present and the remote marker present and strictly newer, a
transport failure of the metadata read is swallowed by the bare `catch`:
`readRemoteLastModified` returns `null` and `checkForConflict` reports
`hasConflict = false` — indistinguishable from the legacy-document fallback,
instead of surfacing a retryable failure as the claim requires. -/
theorem checkForConflict_swallows_read_error :
    readErrorState.lastSyncTime = some "2024-06-01"
    ∧ readErrorState.remote.metadataRows
        = some [["Key", "Value"], ["lastModified", "2025-01-01"]]
    ∧ metaFetch readErrorState.remote readErrorState.faults = .error "network error"
    ∧ readRemoteLastModified (metaFetch readErrorState.remote readErrorState.faults) = none
    ∧ checkForConflict readErrorState "sheet-1"
        = (readErrorState, [.metadataGet], .ok (false, none)) :=
  ⟨rfl, rfl, rfl, rfl, rfl⟩

/-- C6: with a remote document configured, a valid token held, no push in
flight and a completely empty local Entity Store, `doPush` issues no remote
call at all and leaves the sync state `idle` — the empty-push guard is a
deliberate no-op, not an error. -/
theorem doPush_empty_push_guard (st : AppState) (now sid : String)
    (hpush : st.pushing = false) (hsid : st.spreadsheetId = some sid)
    (htok : st.hasToken = true) (hm : st.mounted = true)
    (hc : st.store.companies = []) (_hp : st.store.projects = [])
    (ht : st.store.timeEntries = []) (_hi : st.store.invoices = []) :
    (doPush st now).2 = [] ∧ (doPush st now).1.status.state = .idle := by
  rw [doPush_empty_guard_eq st now sid hpush hsid htok hm hc ht]
  exact ⟨rfl, rfl⟩

theorem doPush_empty_push_guard_witness :
    (doPush emptyStoreState "2026-01-01T00:00:00.000Z").2 = [] ∧
    (doPush emptyStoreState "2026-01-01T00:00:00.000Z").1.status.state = .idle :=
  doPush_empty_push_guard emptyStoreState "2026-01-01T00:00:00.000Z" "sheet-1"
    rfl rfl rfl rfl rfl rfl rfl rfl

/-- C8: whenever `syncToSheets` completes successfully, the remote
`lastModified` written to the `_Metadata` sheet and the local `lastSyncTime`
are one and the same timestamp — the single clock reading taken at that
push. -/
theorem syncToSheets_records_same_timestamp (st : AppState) (now : String)
    (data : SyncData)
    (h : ∃ id, (syncToSheets st now data).2.2 = Except.ok id) :
    (syncToSheets st now data).1.lastSyncTime = some now ∧
    (syncToSheets st now data).1.remote.metadataRows
      = some [["Key", "Value"], ["lastModified", now]] := by
  rcases h with ⟨id, hid⟩
  obtain ⟨pushing, mounted, hasToken, status, spreadsheetId, lastSyncTime, store, remote, faults⟩ := st
  obtain ⟨mrf, pf, cf, ef, wf, mwf⟩ := faults
  cases spreadsheetId <;> cases cf <;> cases ef <;> cases wf <;> cases mwf <;>
    first
      | (exfalso; revert hid; simp [syncToSheets, syncBody, writeRemoteLastModified]; done)
      | simp [syncToSheets, syncBody, writeRemoteLastModified]

theorem syncToSheets_records_same_timestamp_witness :
    (syncToSheets sampleState "2026-03-01T00:00:00.000Z" sampleData).1.lastSyncTime
      = some "2026-03-01T00:00:00.000Z" ∧
    (syncToSheets sampleState "2026-03-01T00:00:00.000Z" sampleData).1.remote.metadataRows
      = some [["Key", "Value"], ["lastModified", "2026-03-01T00:00:00.000Z"]] :=
  syncToSheets_records_same_timestamp sampleState "2026-03-01T00:00:00.000Z" sampleData
    ⟨"sheet-1", rfl⟩

/-- C9: at most one push is in flight — a `doPush` call while the in-flight
flag is raised returns immediately with no remote calls and no state change
(not queued), and whenever a push actually runs, the in-flight flag is back
to `false` when it completes, on the success and on the failure path alike. -/
theorem doPush_single_flight (st : AppState) (now : String) :
    (st.pushing = true → doPush st now = (st, [])) ∧
    (st.pushing = false → (doPush st now).1.pushing = false) := by
  constructor
  · intro hpush
    unfold doPush
    rw [if_pos hpush]
  · intro hpush
    unfold doPush
    rw [if_neg (by rw [hpush]; simp)]
    cases hsid : st.spreadsheetId with
    | none => simpa using hpush
    | some sid =>
      simp only []
      by_cases htok : st.hasToken = true
      · rw [if_neg (by rw [htok]; simp)]
        exact doPushFinish_pushing _
      · rw [if_pos (by rw [Bool.not_eq_true] at htok; rw [htok]; rfl)]
        simpa using hpush

theorem doPush_single_flight_witness :
    doPush inflightState "2026-01-01T00:00:00.000Z" = (inflightState, []) ∧
    (doPush noDocState "2026-01-01T00:00:00.000Z").1.pushing = false :=
  ⟨(doPush_single_flight inflightState "2026-01-01T00:00:00.000Z").1 rfl,
   (doPush_single_flight noDocState "2026-01-01T00:00:00.000Z").2 rfl⟩

/-- C10: the empty-push guard fires exactly on the condition it tests —
companies empty and time entries empty. Projects and invoices may be
populated, and the remote document contents, faults and `lastSyncTime` are
arbitrary: no remote call is issued, the status returns to `idle`, and the
Entity Store and remote document are untouched. -/
theorem doPush_guard_inspects_only_companies_and_entries (st : AppState)
    (now sid : String)
    (hpush : st.pushing = false) (hsid : st.spreadsheetId = some sid)
    (htok : st.hasToken = true) (hm : st.mounted = true)
    (hc : st.store.companies = []) (ht : st.store.timeEntries = []) :
    (doPush st now).2 = [] ∧ (doPush st now).1.status.state = .idle
      ∧ (doPush st now).1.store = st.store ∧ (doPush st now).1.remote = st.remote := by
  rw [doPush_empty_guard_eq st now sid hpush hsid htok hm hc ht]
  exact ⟨rfl, rfl, rfl, rfl⟩

theorem doPush_guard_inspects_only_companies_and_entries_witness :
    (doPush partialStoreState "2026-01-01T00:00:00.000Z").2 = [] ∧
    (doPush partialStoreState "2026-01-01T00:00:00.000Z").1.status.state = .idle
    ∧ (doPush partialStoreState "2026-01-01T00:00:00.000Z").1.store
        = partialStoreState.store
    ∧ (doPush partialStoreState "2026-01-01T00:00:00.000Z").1.remote
        = partialStoreState.remote :=
  doPush_guard_inspects_only_companies_and_entries partialStoreState
    "2026-01-01T00:00:00.000Z" "sheet-1" rfl rfl rfl rfl rfl rfl

/-- C7 (counterexample): the round-trip is not the identity on every valid
record — a valid invoice whose optional `billingType` is absent comes back
from `fromRows(toRows(·))` with `billingType = 'hourly'`, so the claim as
stated fails on the invoices collection. -/
theorem invoices_roundtrip_counterexample :
    validInvoice sampleInvoiceNoBilling
    ∧ sampleInvoiceNoBilling.billingType = none
    ∧ rowsToInvoices (invoicesToRows [sampleInvoiceNoBilling])
        ≠ [sampleInvoiceNoBilling]
    ∧ rowsToInvoices (invoicesToRows [sampleInvoiceNoBilling])
        = [{ sampleInvoiceNoBilling with billingType := some "hourly" }] := by
  refine ⟨by decide, rfl, by decide, by decide⟩

/-- C7 (amended): under the current column set, `fromRows(toRows(·))`
reproduces valid companies, projects, time entries and the profile
field-for-field; valid invoices are reproduced up to the one normalization
the reverse mapper applies — an absent `billingType` comes back as
`'hourly'` — and invoices whose `billingType` is present round-trip
exactly. -/
theorem roundtrip_mapping_amended :
    (∀ cs, (∀ c ∈ cs, validCompany c) → rowsToCompanies (companiesToRows cs) = cs)
    ∧ (∀ ps, rowsToProjects (projectsToRows ps) = ps)
    ∧ (∀ es, (∀ e ∈ es, validTimeEntry e) →
        rowsToTimeEntries (timeEntriesToRows es) = es)
    ∧ (∀ invs, (∀ i ∈ invs, validInvoice i) →
        rowsToInvoices (invoicesToRows invs) = invs.map normalizeInvoice)
    ∧ (∀ i : Invoice, ∀ b, i.billingType = some b → normalizeInvoice i = i)
    ∧ (∀ p, validProfile p → rowsToProfile (profileToRows p) = p) := by
  refine ⟨companies_roundtrip, projects_roundtrip, timeEntries_roundtrip,
    invoices_roundtrip, ?hnorm, profile_roundtrip⟩
  intro i b hb
  unfold normalizeInvoice
  rw [hb]
  rw [show (some b).getD "hourly" = b from rfl, ← hb]

theorem roundtrip_mapping_amended_witness :
    rowsToCompanies (companiesToRows [sampleCompany]) = [sampleCompany]
    ∧ rowsToTimeEntries (timeEntriesToRows [sampleEntry]) = [sampleEntry]
    ∧ rowsToInvoices (invoicesToRows [sampleInvoiceNoBilling])
        = [sampleInvoiceNoBilling].map normalizeInvoice
    ∧ rowsToProfile (profileToRows sampleProfile) = sampleProfile :=
  ⟨roundtrip_mapping_amended.1 [sampleCompany] (by decide),
   roundtrip_mapping_amended.2.2.1 [sampleEntry] (by decide),
   roundtrip_mapping_amended.2.2.2.1 [sampleInvoiceNoBilling] (by decide),
   roundtrip_mapping_amended.2.2.2.2.2 sampleProfile (by decide)⟩
